import Mathlib

/-!
Verification of `marimo/_plugins/stateless/image.py`: the image-like
normalizer `_normalize_image` and the renderer `image`.

Numeric grids are embedded as lists of rationals (the element order of the
flattened array); byte strings as lists of naturals; the optional `PIL` and
`numpy` packages as availability flags. Out-of-scope collaborators (the PIL
codec, the virtual-file store, the HTML builder, `create_style`,
`normalize_dimension`, `io_to_data_url`) are modelled from the spec, each
marked `Modelled from the spec:` in its doc comment.
-/

namespace Marimo

/-- Availability of the optional dependencies checked by
`DependencyManager.pillow` and `DependencyManager.numpy`. -/
structure Deps where
  pillow : Bool
  numpy : Bool
deriving DecidableEq, Repr

/-- The `ImageLike` union of `image.py`: array-like values (a nested list, an
object with `__array__`, an object with `toarray`) carry their flattened
numeric grid; `stream` is `io.BytesIO` and `reader` is `io.BufferedReader`,
each a byte buffer with a current position; `pil` is a `PIL.Image.Image`
with its optional `format` and pixel data; `other` is any unsupported
runtime type, carrying its printed type name. -/
inductive ImageLike where
  | list (g : List Rat)
  | arrayObj (g : List Rat) (hasIface : Bool)
  | sparse (g : List Rat)
  | pil (format : Option String) (data : List Nat)
  | str (s : String)
  | bytes (b : List Nat)
  | stream (buf : List Nat) (pos : Nat)
  | reader (buf : List Nat) (pos : Nat)
  | path (p : String)
  | other (tyName : String)
deriving DecidableEq, Repr

/-- Errors raised on the normalization path: `moduleNotFound` is the
`ModuleNotFoundError` raised by `DependencyManager.require` (the spec's
`MissingDependencyError`); `valueError` is the `ValueError` raised for
unsupported types (the spec's `UnsupportedTypeError`). -/
inductive NormError where
  | moduleNotFound (package : String)
  | valueError (message : String)
deriving DecidableEq, Repr

/-- Python `src.min()`: the minimum of the (flattened) grid. -/
def gridMin (g : List Rat) : Rat := g.foldl min (g.headD 0)

/-- Python `src.max()`: the maximum of the (flattened) grid. -/
def gridMax (g : List Rat) : Rat := g.foldl max (g.headD 0)

/-- Modelled from the spec: numpy elementwise float arithmetic for
`(src - src.min()) / (src.max() - src.min()) * 255.0`. A zero divisor
(constant grid) makes the division undefined (NaN), represented as `none`;
otherwise exact rational arithmetic stands in for float arithmetic. -/
def normPixel (m M x : Rat) : Option Rat :=
  if M - m = 0 then none else some ((x - m) / (M - m) * 255)

/-- The elementwise min-max normalization of the whole grid. -/
def minMaxNormalize (g : List Rat) : List (Option Rat) :=
  g.map (fun x => normPixel (gridMin g) (gridMax g) x)

/-- Modelled from the spec: numpy `.astype("uint8")` truncates toward zero
and wraps modulo 256; the cast of NaN is platform-undefined and is fixed
arbitrarily as 0 here. -/
def astypeUint8 : Option Rat → Nat
  | none => 0
  | some x => x.floor.toNat % 256

/-- The pixel bytes produced by the array branch: min-max normalize, then
cast to unsigned 8-bit. -/
def gridPixels (g : List Rat) : List Nat := (minMaxNormalize g).map astypeUint8

/-- Modelled from the spec: the out-of-scope PIL PNG encoder
(`img.save(buf, format="PNG")`), modelled as the 8-byte PNG signature
followed by the pixel bytes. -/
def pngEncode (pixels : List Nat) : List Nat :=
  [137, 80, 78, 71, 13, 10, 26, 10] ++ pixels

/-- Modelled from the spec: PIL `Image.save` for an existing codec image
object in the given format (the object's own format, or PNG as default). -/
def pilEncode (format : String) (data : List Nat) : List Nat :=
  (format.toList.map Char.toNat) ++ data

/-- The guard of the array branch:
`isinstance(src, list) or hasattr(src, "__array__") or hasattr(src, "toarray")`. -/
def isArrayLike : ImageLike → Bool
  | .list _ => true
  | .arrayObj _ _ => true
  | .sparse _ => true
  | _ => false

/-- Python `hasattr(src, "__array_interface__")`: true only for array-protocol
objects that expose the interface attribute (e.g. a numpy ndarray). -/
def hasArrayIface : ImageLike → Bool
  | .arrayObj _ b => b
  | _ => false

/-- The numeric grid an array-like value coerces to: a nested list via
`numpy.array`, a sparse-like object via `toarray()` then `numpy.array`, an
array-protocol object via its `__array__` conversion. -/
def gridOf : ImageLike → List Rat
  | .list g => g
  | .arrayObj g _ => g
  | .sparse g => g
  | _ => []

/-- The printed runtime type, as `type(src)` renders it. -/
def pyTypeName : ImageLike → String
  | .list _ => "<class 'list'>"
  | .arrayObj _ _ => "<class 'numpy.ndarray'>"
  | .sparse _ => "<class 'scipy.sparse.spmatrix'>"
  | .pil _ _ => "<class 'PIL.Image.Image'>"
  | .str _ => "<class 'str'>"
  | .bytes _ => "<class 'bytes'>"
  | .stream _ _ => "<class '_io.BytesIO'>"
  | .reader _ _ => "<class '_io.BufferedReader'>"
  | .path _ => "<class 'pathlib.PosixPath'>"
  | .other t => t

/-- The `ValueError` message of the final branch:
`f"Expected an image object, but got {type(src)} instead."`. -/
def unsupportedMessage (src : ImageLike) : String :=
  "Expected an image object, but got " ++ pyTypeName src ++ " instead."

/-- The array branch of `_normalize_image`: require pillow; require numpy
unless the value exposes `__array_interface__`; min-max normalize, cast to
uint8, PNG-encode into a fresh `io.BytesIO` (left unrewound: its position
is the end of the written data). -/
def normalizeArray (deps : Deps) (hasIface : Bool) (g : List Rat) :
    Except NormError ImageLike :=
  if deps.pillow = false then .error (.moduleNotFound "pillow")
  else if hasIface = false ∧ deps.numpy = false then .error (.moduleNotFound "numpy")
  else
    let out := pngEncode (gridPixels g)
    .ok (.stream out out.length)

/-- The function `_normalize_image`: array-likes go through the array branch; a PIL image
(when pillow is imported) is re-encoded into a rewound `io.BytesIO`;
strings, bytes, byte streams, readers and paths pass through unchanged;
anything else raises `ValueError` naming the runtime type. -/
def _normalize_image (deps : Deps) (src : ImageLike) : Except NormError ImageLike :=
  match src with
  | .list g => normalizeArray deps false g
  | .arrayObj g hasIface => normalizeArray deps hasIface g
  | .sparse g => normalizeArray deps false g
  | .pil format data =>
      if deps.pillow then .ok (.stream (pilEncode (format.getD "PNG") data) 0)
      else .error (.valueError (unsupportedMessage (.pil format data)))
  | .str s => .ok (.str s)
  | .bytes b => .ok (.bytes b)
  | .stream buf pos => .ok (.stream buf pos)
  | .reader buf pos => .ok (.reader buf pos)
  | .path p => .ok (.path p)
  | .other t => .error (.valueError (unsupportedMessage (.other t)))

/-- The `NormalizedImage` shapes (`Image = Union[str, bytes, io.BytesIO,
io.BufferedReader, Path]`), which are also exactly the pass-through inputs. -/
def isNormalizedImage : ImageLike → Bool
  | .str _ => true
  | .bytes _ => true
  | .stream _ _ => true
  | .reader _ _ => true
  | .path _ => true
  | _ => false

/-- Modelled from the spec: the virtual-file store collaborator, a list of
registered entries mapping a URL to the registered bytes (most recent
first). -/
abbrev VStore := List (String × List Nat)

/-- Modelled from the spec: the URL the store returns for its `n`-th
registration, carrying the optional extension hint (default png). -/
def vfileUrl (n : Nat) (ext : Option String) : String :=
  "/@file/" ++ toString n ++ (ext.getD ".png")

/-- Modelled from the spec: `mo_data.image(bytes, ext) -> VirtualFile`:
register bytes with the store and obtain a dereferenceable URL. -/
def register (store : VStore) (data : List Nat) (ext : Option String) :
    String × VStore :=
  (vfileUrl store.length ext, (vfileUrl store.length ext, data) :: store)

/-- Modelled from the spec: `io_to_data_url` best-effort media-URL
resolution for values that are not local data (a remote URL or data URL is
already a string and is returned as-is), with image/png as fallback MIME
type. -/
def io_to_data_url (src : ImageLike) (_fallbackMimeType : String) : Option String :=
  match src with
  | .str s => some s
  | _ => none

/-- The `width`/`height` argument of `image`: absent, a plain number, or a
CSS length string. -/
inductive Dim where
  | missing
  | num (n : Int)
  | txt (s : String)
deriving DecidableEq, Repr

/-- Modelled from the spec: `normalize_dimension` turns a plain number into
`"Npx"` and passes a string through; an absent dimension stays absent. -/
def normalize_dimension : Dim → Option String
  | .missing => none
  | .num n => some (toString n ++ "px")
  | .txt s => some s

/-- Python dict update for one key: replace the value at an existing key in
place, else append the new entry at the end. -/
def updateEntry : List (String × Option String) → String → Option String →
    List (String × Option String)
  | [], k, v => [(k, v)]
  | p :: rest, k, v =>
      if p.1 = k then (k, v) :: rest else p :: updateEntry rest k v

/-- Python `{**base, **overrides}`: fold every override entry into the base
dict, overrides winning on key collision. -/
def dictUpdate (base overrides : List (String × Option String)) :
    List (String × Option String) :=
  overrides.foldl (fun d p => updateEntry d p.1 p.2) base

/-- The computed part of the style dict literal in `image`: normalized
width and height, and `border-radius: 4px` exactly when `rounded`. -/
def baseStyle (width height : Dim) (rounded : Bool) :
    List (String × Option String) :=
  [("width", normalize_dimension width),
   ("height", normalize_dimension height),
   ("border-radius", if rounded then some "4px" else none)]

/-- The keyword arguments of `image` other than `src`. -/
structure RenderOpts where
  alt : Option String
  width : Dim
  height : Dim
  rounded : Bool
  style : Option (List (String × Option String))
  caption : Option String
deriving DecidableEq, Repr

/-- All keyword arguments left at their defaults, as in `image(src)`. -/
def defaultOpts : RenderOpts :=
  ⟨none, .missing, .missing, false, none, none⟩

/-- The style dict literal of `image`:
`{"width": ..., "height": ..., "border-radius": ..., **(style or {})}`. -/
def computedStyleDict (opts : RenderOpts) : List (String × Option String) :=
  dictUpdate (baseStyle opts.width opts.height opts.rounded) (opts.style.getD [])

/-- Modelled from the spec: `create_style` renders the declaration map as in
the spec's example `style="width:100px;height:100px"`, dropping absent
values; no style at all when every value is absent. -/
def create_style (pairs : List (String × Option String)) : Option String :=
  let entries := pairs.filterMap (fun p => p.2.map (fun v => p.1 ++ ":" ++ v))
  if entries.isEmpty then none else some (String.intercalate ";" entries)

/-- Modelled from the spec: the out-of-scope HTML builder `h`; tags are kept
structurally rather than as strings. -/
inductive Html where
  | img (src : Option String) (alt : Option String) (style : Option String)
  | figcaption (text : String) (style : String)
  | figure (children : List Html) (style : String)

/-- The style attribute of the emitted `<img>`: the tag itself, or the first
child when it is wrapped in a captioned `<figure>`. -/
def imgStyleOf : Html → Option String
  | .img _ _ s => s
  | .figure children _ =>
      match children with
      | .img _ _ s :: _ => s
      | _ => none
  | .figcaption _ _ => none

/-- The inline style of the `<figcaption>` emitted for a caption. -/
def figcaptionStyle : String :=
  "color: var(--muted-foreground); text-align: center; margin-top: 0.5rem;"

/-- The inline style of the captioned `<figure>` wrapper. -/
def figureStyle : String := "display: flex; flex-direction: column;"

/-- Modelled from the spec: `os.path.expanduser` home-directory expansion
for a string path. -/
def expanduser (home s : String) : String :=
  if s = "~" then home
  else if s.toList.take 2 = ['~', '/'] then home ++ String.mk (s.toList.drop 1)
  else s

/-- The local filesystem: the bytes of each existing file, by path. -/
abbrev FileSystem := String → Option (List Nat)

/-- Modelled from the spec/stdlib: `Path.suffix`, the extension of the final
path component from its last dot; empty when the dot is absent, leading or
trailing. -/
def pathSuffix (p : String) : String :=
  let name := ((p.splitOn "/").getLastD "").toList
  match name.reverse.findIdx? (fun c => c == '.') with
  | none => ""
  | some j =>
      let i := name.length - 1 - j
      if 0 < i ∧ i < name.length - 1 then String.mk (name.drop i) else ""

/-- Python `stream.read()` after `stream.seek(pos)`: the buffer from `pos` on. -/
def streamRead (buf : List Nat) (pos : Nat) : List Nat := buf.drop pos

/-- The `resolved_src` chain of `image`: a reader or byte stream is sought
to 0 and read whole; bytes register directly; a path reads its bytes and
registers with its suffix as extension hint; a string naming an existing
file (after home expansion) does the same; everything else falls back to
`io_to_data_url`. Returns the resolved URL and the updated store. -/
def resolveSrc (fs : FileSystem) (home : String) (store : VStore)
    (src : ImageLike) : Option String × VStore :=
  match src with
  | .reader buf _pos =>
      let r := register store (streamRead buf 0) none
      (some r.1, r.2)
  | .stream buf _pos =>
      let r := register store (streamRead buf 0) none
      (some r.1, r.2)
  | .bytes b =>
      let r := register store b none
      (some r.1, r.2)
  | .path p =>
      let r := register store ((fs p).getD []) (some (pathSuffix p))
      (some r.1, r.2)
  | .str s =>
      if (fs (expanduser home s)).isSome then
        let r := register store ((fs (expanduser home s)).getD [])
          (some (pathSuffix (expanduser home s)))
        (some r.1, r.2)
      else (io_to_data_url (.str s) "image/png", store)
  | src => (io_to_data_url src "image/png", store)

/-- The renderer `image`: normalize the source, resolve it to a URL
(registering bytes with the virtual-file store as needed), compute the
style, and emit an `<img>`, wrapped with a `<figcaption>` in a flex
`<figure>` when a caption is given. -/
def image (deps : Deps) (fs : FileSystem) (home : String) (store : VStore)
    (src : ImageLike) (opts : RenderOpts) : Except NormError (Html × VStore) :=
  match _normalize_image deps src with
  | .error e => .error e
  | .ok nsrc =>
      match opts.caption with
      | some c =>
          .ok (.figure
            [Html.img (resolveSrc fs home store nsrc).1 opts.alt
              (create_style (computedStyleDict opts)),
             .figcaption c figcaptionStyle] figureStyle,
            (resolveSrc fs home store nsrc).2)
      | none =>
          .ok (Html.img (resolveSrc fs home store nsrc).1 opts.alt
              (create_style (computedStyleDict opts)),
            (resolveSrc fs home store nsrc).2)

/-- A two-file demonstration filesystem used by the concrete witnesses. -/
def demoFs : FileSystem := fun q =>
  if q = "/home/u/a.png" then some [9, 9]
  else if q = "/home/u/b.png" then some [5]
  else none

/-- Options with `rounded := true` but an explicit border-radius override of
8px in the caller's style dict. -/
def roundedOverrideOpts : RenderOpts :=
  ⟨none, .missing, .missing, true, some [("border-radius", some "8px")], none⟩

/-- Options with `width := 100` but an explicit width override of 30px in
the caller's style dict. -/
def overrideWidthOpts : RenderOpts :=
  ⟨none, .num 100, .missing, false, some [("width", some "30px")], none⟩

/-- Options with `rounded := true` and no style overrides. -/
def roundedOpts : RenderOpts :=
  ⟨none, .missing, .missing, true, none, none⟩

/-! Helper lemmas about the grid minimum and maximum. -/

theorem ratFloor_eq_intFloor (q : ℚ) : q.floor = ⌊q⌋ := by
  rw [Rat.floor_def', Rat.floor_def]

theorem foldl_min_le_init (l : List ℚ) (a : ℚ) : l.foldl min a ≤ a := by
  induction l generalizing a with
  | nil => exact le_refl a
  | cons x xs ih => exact le_trans (ih (min a x)) (min_le_left a x)

theorem foldl_min_le_mem (l : List ℚ) : ∀ a x : ℚ, x ∈ l → l.foldl min a ≤ x := by
  induction l with
  | nil => intro a x hx; cases hx
  | cons y ys ih =>
      intro a x hx
      rcases List.mem_cons.mp hx with h | h
      · subst h
        exact le_trans (foldl_min_le_init ys (min a x)) (min_le_right a x)
      · exact ih (min a y) x h

theorem foldl_min_mem (l : List ℚ) : ∀ a : ℚ, l.foldl min a = a ∨ l.foldl min a ∈ l := by
  induction l with
  | nil => intro a; exact Or.inl rfl
  | cons y ys ih =>
      intro a
      rw [List.foldl_cons]
      rcases ih (min a y) with h | h
      · rw [h]
        rcases min_choice a y with h' | h'
        · exact Or.inl h'
        · exact Or.inr (by rw [h']; exact List.mem_cons_self y ys)
      · exact Or.inr (List.mem_cons_of_mem y h)

theorem foldl_max_ge_init (l : List ℚ) (a : ℚ) : a ≤ l.foldl max a := by
  induction l generalizing a with
  | nil => exact le_refl a
  | cons x xs ih => exact le_trans (le_max_left a x) (ih (max a x))

theorem foldl_max_ge_mem (l : List ℚ) : ∀ a x : ℚ, x ∈ l → x ≤ l.foldl max a := by
  induction l with
  | nil => intro a x hx; cases hx
  | cons y ys ih =>
      intro a x hx
      rcases List.mem_cons.mp hx with h | h
      · subst h
        exact le_trans (le_max_right a x) (foldl_max_ge_init ys (max a x))
      · exact ih (max a y) x h

theorem foldl_max_mem (l : List ℚ) : ∀ a : ℚ, l.foldl max a = a ∨ l.foldl max a ∈ l := by
  induction l with
  | nil => intro a; exact Or.inl rfl
  | cons y ys ih =>
      intro a
      rw [List.foldl_cons]
      rcases ih (max a y) with h | h
      · rw [h]
        rcases max_choice a y with h' | h'
        · exact Or.inl h'
        · exact Or.inr (by rw [h']; exact List.mem_cons_self y ys)
      · exact Or.inr (List.mem_cons_of_mem y h)

theorem gridMin_le (g : List ℚ) (x : ℚ) (hx : x ∈ g) : gridMin g ≤ x :=
  foldl_min_le_mem g (g.headD 0) x hx

theorem le_gridMax (g : List ℚ) (x : ℚ) (hx : x ∈ g) : x ≤ gridMax g :=
  foldl_max_ge_mem g (g.headD 0) x hx

theorem gridMin_mem (g : List ℚ) (hg : g ≠ []) : gridMin g ∈ g := by
  rcases foldl_min_mem g (g.headD 0) with h | h
  · show g.foldl min (g.headD 0) ∈ g
    rw [h]
    cases g with
    | nil => exact absurd rfl hg
    | cons y ys => exact List.mem_cons_self y ys
  · exact h

theorem gridMax_mem (g : List ℚ) (hg : g ≠ []) : gridMax g ∈ g := by
  rcases foldl_max_mem g (g.headD 0) with h | h
  · show g.foldl max (g.headD 0) ∈ g
    rw [h]
    cases g with
    | nil => exact absurd rfl hg
    | cons y ys => exact List.mem_cons_self y ys
  · exact h

theorem gridMin_le_gridMax (g : List ℚ) (hg : g ≠ []) : gridMin g ≤ gridMax g :=
  gridMin_le g (gridMax g) (gridMax_mem g hg)

/-- The divisor of the min-max normalization is zero exactly on constant
grids. -/
theorem gridRange_eq_zero_iff (g : List ℚ) (hg : g ≠ []) :
    gridMax g - gridMin g = 0 ↔ ∀ x ∈ g, ∀ y ∈ g, x = y := by
  constructor
  · intro h x hx y hy
    have hMm : gridMax g = gridMin g := sub_eq_zero.mp h
    have hx' : x = gridMin g :=
      le_antisymm (hMm ▸ le_gridMax g x hx) (gridMin_le g x hx)
    have hy' : y = gridMin g :=
      le_antisymm (hMm ▸ le_gridMax g y hy) (gridMin_le g y hy)
    rw [hx', hy']
  · intro h
    rw [h (gridMax g) (gridMax_mem g hg) (gridMin g) (gridMin_mem g hg), sub_self]

/-! Helper lemmas about a single normalized pixel. -/

theorem normPixel_at_min (m M : ℚ) (h : M - m ≠ 0) : normPixel m M m = some 0 := by
  simp [normPixel, h]

theorem normPixel_at_max (m M : ℚ) (h : M - m ≠ 0) : normPixel m M M = some 255 := by
  simp [normPixel, h, div_self h]

theorem normPixel_bounds (m M x : ℚ) (hm : m ≤ x) (hM : x ≤ M) (h : M - m ≠ 0) :
    ∃ v, normPixel m M x = some v ∧ 0 ≤ v ∧ v ≤ 255 := by
  have hpos : 0 < M - m := lt_of_le_of_ne (by linarith) (Ne.symm h)
  refine ⟨(x - m) / (M - m) * 255, by simp [normPixel, h], ?_, ?_⟩
  · have h1 : (0 : ℚ) ≤ x - m := by linarith
    have h2 : (0 : ℚ) ≤ (x - m) / (M - m) := div_nonneg h1 (le_of_lt hpos)
    nlinarith
  · have h2 : (x - m) / (M - m) ≤ 1 := (div_le_one hpos).mpr (by linarith)
    nlinarith

theorem astypeUint8_le (v : Option ℚ) : astypeUint8 v ≤ 255 := by
  cases v with
  | none => simp [astypeUint8]
  | some x => exact Nat.le_of_lt_succ (Nat.mod_lt _ (by norm_num))

theorem astypeUint8_some_zero : astypeUint8 (some 0) = 0 := by
  show (Rat.floor 0).toNat % 256 = 0
  rw [ratFloor_eq_intFloor]
  norm_num

theorem astypeUint8_some_255 : astypeUint8 (some 255) = 255 := by
  show (Rat.floor 255).toNat % 256 = 255
  rw [ratFloor_eq_intFloor]
  norm_num
  decide

/-! Helper lemmas about the pixel list of the array branch. -/

theorem gridPixels_eq_map (g : List ℚ) :
    gridPixels g =
      g.map (fun x => astypeUint8 (normPixel (gridMin g) (gridMax g) x)) := by
  simp [gridPixels, minMaxNormalize, List.map_map, Function.comp]

theorem zero_mem_gridPixels (g : List ℚ) (hg : g ≠ [])
    (h : gridMax g - gridMin g ≠ 0) : 0 ∈ gridPixels g := by
  rw [gridPixels_eq_map]
  refine List.mem_map.mpr ⟨gridMin g, gridMin_mem g hg, ?_⟩
  rw [normPixel_at_min _ _ h, astypeUint8_some_zero]

theorem mem_255_gridPixels (g : List ℚ) (hg : g ≠ [])
    (h : gridMax g - gridMin g ≠ 0) : 255 ∈ gridPixels g := by
  rw [gridPixels_eq_map]
  refine List.mem_map.mpr ⟨gridMax g, gridMax_mem g hg, ?_⟩
  rw [normPixel_at_max _ _ h, astypeUint8_some_255]

theorem gridPixels_le_255 (g : List ℚ) : ∀ v ∈ gridPixels g, v ≤ 255 := by
  intro v hv
  rcases List.mem_map.mp hv with ⟨x, _, hx⟩
  rw [← hx]
  exact astypeUint8_le x

/-- A non-constant grid has a nonzero normalization divisor. -/
theorem gridRange_ne_zero (g : List ℚ) (x y : ℚ) (hx : x ∈ g) (hy : y ∈ g)
    (hxy : x ≠ y) : gridMax g - gridMin g ≠ 0 := by
  intro h
  have hg : g ≠ [] := by
    intro he
    rw [he] at hx
    cases hx
  exact hxy ((gridRange_eq_zero_iff g hg).mp h x hx y hy)

/-! Helper lemmas about Python dict update and lookup. -/

theorem updateEntry_lookup_self (d : List (String × Option String))
    (k : String) (v : Option String) : (updateEntry d k v).lookup k = some v := by
  induction d with
  | nil => simp [updateEntry, List.lookup]
  | cons p rest ih =>
      obtain ⟨pk, pv⟩ := p
      by_cases h : pk = k
      · subst h
        simp [updateEntry, List.lookup]
      · have hb : (k == pk) = false := beq_false_of_ne (Ne.symm h)
        simp [updateEntry, h, List.lookup, hb, ih]

theorem updateEntry_lookup_ne (d : List (String × Option String))
    (k k' : String) (v : Option String) (h : k' ≠ k) :
    (updateEntry d k v).lookup k' = d.lookup k' := by
  induction d with
  | nil =>
      have hb : (k' == k) = false := beq_false_of_ne h
      simp [updateEntry, List.lookup, hb]
  | cons p rest ih =>
      obtain ⟨pk, pv⟩ := p
      by_cases hp : pk = k
      · subst hp
        have hb : (k' == pk) = false := beq_false_of_ne h
        simp [updateEntry, List.lookup, hb]
      · simp only [updateEntry, if_neg hp, List.lookup]
        cases hb : (k' == pk) with
        | true => rfl
        | false => exact ih

theorem updateEntry_mem_ne (d : List (String × Option String))
    (k k' : String) (v v' : Option String) (h : k' ≠ k) :
    (k', v') ∈ updateEntry d k v ↔ (k', v') ∈ d := by
  induction d with
  | nil => simp [updateEntry, Prod.ext_iff, h]
  | cons p rest ih =>
      obtain ⟨pk, pv⟩ := p
      by_cases hp : pk = k
      · subst hp
        have hupd : updateEntry ((pk, pv) :: rest) pk v = (pk, v) :: rest := by
          simp [updateEntry]
        rw [hupd]
        constructor
        · intro hm
          rcases List.mem_cons.mp hm with hEq | hm2
          · exact absurd (congrArg Prod.fst hEq) h
          · exact List.mem_cons_of_mem _ hm2
        · intro hm
          rcases List.mem_cons.mp hm with hEq | hm2
          · exact absurd (congrArg Prod.fst hEq) h
          · exact List.mem_cons_of_mem _ hm2
      · simp only [updateEntry, if_neg hp, List.mem_cons, ih]

theorem dictUpdate_nil (base : List (String × Option String)) :
    dictUpdate base [] = base := rfl

theorem dictUpdate_cons (base : List (String × Option String))
    (p : String × Option String) (ovr : List (String × Option String)) :
    dictUpdate base (p :: ovr) = dictUpdate (updateEntry base p.1 p.2) ovr := rfl

theorem dictUpdate_lookup_of_not_key (base ovr : List (String × Option String))
    (k : String) (h : ∀ p ∈ ovr, p.1 ≠ k) :
    (dictUpdate base ovr).lookup k = base.lookup k := by
  induction ovr generalizing base with
  | nil => rfl
  | cons p rest ih =>
      rw [dictUpdate_cons,
        ih _ (fun q hq => h q (List.mem_cons_of_mem p hq)),
        updateEntry_lookup_ne _ _ _ _ (Ne.symm (h p (List.mem_cons_self p rest)))]

theorem dictUpdate_lookup_override (base ovr : List (String × Option String))
    (k : String) (v : Option String) (hnd : (ovr.map Prod.fst).Nodup)
    (h : ovr.lookup k = some v) : (dictUpdate base ovr).lookup k = some v := by
  induction ovr generalizing base with
  | nil => cases h
  | cons p rest ih =>
      rw [List.map_cons, List.nodup_cons] at hnd
      obtain ⟨pk, pv⟩ := p
      by_cases hk : pk = k
      · subst hk
        have hv : pv = v := by
          have hh := h
          simp only [List.lookup, beq_self_eq_true] at hh
          exact Option.some.inj hh
        have hrest : ∀ q ∈ rest, q.1 ≠ pk := by
          intro q hq hqk
          apply hnd.1
          rw [← hqk]
          exact List.mem_map.mpr ⟨q, hq, rfl⟩
        rw [dictUpdate_cons, dictUpdate_lookup_of_not_key _ _ _ hrest, ← hv]
        exact updateEntry_lookup_self _ _ _
      · have hb : (k == pk) = false := beq_false_of_ne (Ne.symm hk)
        have h' : rest.lookup k = some v := by
          simpa [List.lookup, hb] using h
        rw [dictUpdate_cons]
        exact ih _ hnd.2 h'

theorem dictUpdate_mem_of_not_key (base ovr : List (String × Option String))
    (k : String) (v : Option String) (h : ∀ p ∈ ovr, p.1 ≠ k) :
    (k, v) ∈ dictUpdate base ovr ↔ (k, v) ∈ base := by
  induction ovr generalizing base with
  | nil => exact Iff.rfl
  | cons p rest ih =>
      rw [dictUpdate_cons,
        ih _ (fun q hq => h q (List.mem_cons_of_mem p hq)),
        updateEntry_mem_ne _ _ _ _ _ (Ne.symm (h p (List.mem_cons_self p rest)))]

/-! Helper lemmas about the style map and the rendered image. -/

theorem baseStyle_lookup_border (w h : Dim) (r : Bool) :
    (baseStyle w h r).lookup "border-radius" =
      some (if r then some "4px" else none) := by
  have h1 : ("border-radius" == "width") = false := by decide
  have h2 : ("border-radius" == "height") = false := by decide
  simp [baseStyle, List.lookup, h1, h2]

theorem border_mem_baseStyle_true (w h : Dim) :
    ("border-radius", some "4px") ∈ baseStyle w h true := by
  simp [baseStyle]

theorem border_not_mem_baseStyle_false (w h : Dim) :
    ("border-radius", some "4px") ∉ baseStyle w h false := by
  intro hm
  have hw : "border-radius" ≠ "width" := by decide
  have hh : "border-radius" ≠ "height" := by decide
  rcases List.mem_cons.mp hm with hEq | hm
  · exact hw (congrArg Prod.fst hEq)
  rcases List.mem_cons.mp hm with hEq | hm
  · exact hh (congrArg Prod.fst hEq)
  rcases List.mem_cons.mp hm with hEq | hm
  · exact Option.noConfusion (congrArg Prod.snd hEq)
  · cases hm

theorem defaultStyles_none : create_style (computedStyleDict defaultOpts) = none := rfl

theorem defaultOpts_caption : defaultOpts.caption = none := rfl

theorem defaultOpts_alt : defaultOpts.alt = none := rfl

/-- The style attribute of the emitted img is always the rendered computed
style dict, with or without a caption wrapper. -/
theorem imgStyleOf_image (deps : Deps) (fs : FileSystem) (home : String)
    (store : VStore) (src : ImageLike) (opts : RenderOpts) (html : Html)
    (st : VStore) (himg : image deps fs home store src opts = .ok (html, st)) :
    imgStyleOf html = create_style (computedStyleDict opts) := by
  unfold image at himg
  cases hn : _normalize_image deps src with
  | error e =>
      rw [hn] at himg
      cases himg
  | ok nsrc =>
      rw [hn] at himg
      cases hc : opts.caption with
      | none =>
          rw [hc] at himg
          cases himg
          rfl
      | some c =>
          rw [hc] at himg
          cases himg
          rfl

/-! Helper lemmas about the array branch of the normalizer. -/

theorem normalizeArray_ok (deps : Deps) (hasIface : Bool) (g : List ℚ)
    (hp : deps.pillow = true) (hn : deps.numpy = true ∨ hasIface = true) :
    normalizeArray deps hasIface g =
      .ok (.stream (pngEncode (gridPixels g)) (pngEncode (gridPixels g)).length) := by
  unfold normalizeArray
  rcases hn with hn | hn
  · simp [hp, hn]
  · simp [hp, hn]

theorem normalizeArray_result (deps : Deps) (b : Bool) (g : List ℚ)
    (out : ImageLike) (h : normalizeArray deps b g = .ok out) :
    isNormalizedImage out = true := by
  unfold normalizeArray at h
  by_cases hp : deps.pillow = false
  · rw [if_pos hp] at h
    cases h
  · rw [if_neg hp] at h
    by_cases hn : b = false ∧ deps.numpy = false
    · rw [if_pos hn] at h
      cases h
    · rw [if_neg hn] at h
      cases h
      rfl

/-! The claims. -/

/-- C2: the divisor `max(grid) - min(grid)` of the array-normalization step
is zero exactly when the grid is constant; with `max ≠ min` every pixel's
division is well-defined, while on a constant grid the unguarded division
leaves every pixel undefined (NaN, modelled as `none`) rather than
zero-filled. -/
theorem divisor_zero_iff_constant (g : List ℚ) (hg : g ≠ []) :
    ((gridMax g - gridMin g = 0) ↔ ∀ x ∈ g, ∀ y ∈ g, x = y)
    ∧ (gridMax g - gridMin g = 0 → ∀ p ∈ minMaxNormalize g, p = none)
    ∧ (gridMax g - gridMin g ≠ 0 → ∀ p ∈ minMaxNormalize g, p ≠ none) := by
  refine ⟨gridRange_eq_zero_iff g hg, ?_, ?_⟩
  · intro h p hp
    rcases List.mem_map.mp hp with ⟨x, _, hx⟩
    rw [← hx]
    simp [normPixel, h]
  · intro h p hp
    rcases List.mem_map.mp hp with ⟨x, _, hx⟩
    rw [← hx]
    simp [normPixel, h]

/-- Witness for C2 at the constant grid `[1, 1]`: the divisor is zero and
every normalized pixel is NaN. -/
theorem divisor_zero_iff_constant_witness :
    ((gridMax [(1 : ℚ), 1] - gridMin [(1 : ℚ), 1] = 0) ↔
      ∀ x ∈ [(1 : ℚ), 1], ∀ y ∈ [(1 : ℚ), 1], x = y)
    ∧ (gridMax [(1 : ℚ), 1] - gridMin [(1 : ℚ), 1] = 0 →
      ∀ p ∈ minMaxNormalize [(1 : ℚ), 1], p = none)
    ∧ (gridMax [(1 : ℚ), 1] - gridMin [(1 : ℚ), 1] ≠ 0 →
      ∀ p ∈ minMaxNormalize [(1 : ℚ), 1], p ≠ none) :=
  divisor_zero_iff_constant [(1 : ℚ), 1] (by simp)

/-- C4: an input of an unrecognized runtime type is rejected with a
`ValueError` whose message names the actual runtime type. -/
theorem unsupported_type_valueerror (deps : Deps) (t : String) :
    _normalize_image deps (ImageLike.other t) =
      .error (.valueError ("Expected an image object, but got " ++ t ++ " instead.")) := rfl

/-- C5: a string, byte string, byte stream, buffered reader or path input
passes through `_normalize_image` unchanged. -/
theorem passthrough_identity (deps : Deps) (src : ImageLike)
    (h : isNormalizedImage src = true) : _normalize_image deps src = .ok src := by
  cases src with
  | str s => rfl
  | bytes b => rfl
  | stream b p => rfl
  | reader b p => rfl
  | path p => rfl
  | list g => exact Bool.noConfusion h
  | arrayObj g b => exact Bool.noConfusion h
  | sparse g => exact Bool.noConfusion h
  | pil f d => exact Bool.noConfusion h
  | other t => exact Bool.noConfusion h

/-- Witness for C5: a concrete byte string is returned unchanged. -/
theorem passthrough_identity_witness :
    _normalize_image ⟨true, true⟩ (ImageLike.bytes [1, 2, 3]) =
      .ok (ImageLike.bytes [1, 2, 3]) :=
  passthrough_identity ⟨true, true⟩ (ImageLike.bytes [1, 2, 3]) rfl

/-- C6: whenever `_normalize_image` succeeds, the result is one of the
`NormalizedImage` shapes (string, bytes, byte stream, reader or path);
no array-like value survives normalization. -/
theorem normalize_result_normalized (deps : Deps) (src out : ImageLike)
    (h : _normalize_image deps src = .ok out) : isNormalizedImage out = true := by
  cases src with
  | list g => exact normalizeArray_result deps false g out h
  | arrayObj g b => exact normalizeArray_result deps b g out h
  | sparse g => exact normalizeArray_result deps false g out h
  | pil f d =>
      cases hp : deps.pillow with
      | true =>
          have h' := h
          simp only [_normalize_image, hp, if_true] at h'
          cases h'
          rfl
      | false =>
          have h' := h
          simp only [_normalize_image, hp, Bool.false_eq_true, if_false] at h'
          cases h'
  | str s =>
      cases h
      rfl
  | bytes b =>
      cases h
      rfl
  | stream b p =>
      cases h
      rfl
  | reader b p =>
      cases h
      rfl
  | path p =>
      cases h
      rfl
  | other t => cases h

/-- Witness for C6: a concrete success produces a normalized shape. -/
theorem normalize_result_normalized_witness :
    isNormalizedImage (ImageLike.bytes [7]) = true :=
  normalize_result_normalized ⟨true, true⟩ (ImageLike.bytes [7])
    (ImageLike.bytes [7]) rfl

/-- C1: on a non-constant array-like input (nested list, array-protocol
object, or densified sparse-like object) with pillow and numpy available,
`_normalize_image` returns a fresh byte stream holding the PNG encoding of
the min-max-normalized, uint8-cast grid, and the encoded pixel values span
`[0, 255]`: 0 and 255 are attained and every value is at most 255. -/
theorem normalize_array_minmax_png (deps : Deps) (src : ImageLike) (g : List ℚ)
    (x y : ℚ) (hp : deps.pillow = true) (hn : deps.numpy = true)
    (harr : isArrayLike src = true) (hg : gridOf src = g)
    (hx : x ∈ g) (hy : y ∈ g) (hxy : x ≠ y) :
    _normalize_image deps src =
      .ok (.stream (pngEncode (gridPixels g)) (pngEncode (gridPixels g)).length)
    ∧ 0 ∈ gridPixels g ∧ 255 ∈ gridPixels g ∧ ∀ v ∈ gridPixels g, v ≤ 255 := by
  have hne : gridMax g - gridMin g ≠ 0 := gridRange_ne_zero g x y hx hy hxy
  have hgne : g ≠ [] := by
    intro he
    rw [he] at hx
    cases hx
  refine ⟨?_, zero_mem_gridPixels g hgne hne, mem_255_gridPixels g hgne hne,
    gridPixels_le_255 g⟩
  cases src with
  | list g' =>
      cases hg
      exact normalizeArray_ok deps false g' hp (Or.inl hn)
  | arrayObj g' b =>
      cases hg
      exact normalizeArray_ok deps b g' hp (Or.inl hn)
  | sparse g' =>
      cases hg
      exact normalizeArray_ok deps false g' hp (Or.inl hn)
  | pil f d => exact Bool.noConfusion harr
  | str s => exact Bool.noConfusion harr
  | bytes b => exact Bool.noConfusion harr
  | stream b p => exact Bool.noConfusion harr
  | reader b p => exact Bool.noConfusion harr
  | path p => exact Bool.noConfusion harr
  | other t => exact Bool.noConfusion harr

/-- Witness for C1 at the grid `[0, 2]`: the resulting stream is the PNG
signature followed by the pixels `[0, 255]`. -/
theorem normalize_array_minmax_png_witness :
    (_normalize_image ⟨true, true⟩ (ImageLike.list [0, 2]) =
      .ok (.stream (pngEncode (gridPixels [0, 2]))
        (pngEncode (gridPixels [0, 2])).length)
    ∧ 0 ∈ gridPixels [0, 2] ∧ 255 ∈ gridPixels [0, 2]
    ∧ ∀ v ∈ gridPixels [0, 2], v ≤ 255)
    ∧ gridPixels [0, 2] = [0, 255] := by
  refine ⟨normalize_array_minmax_png ⟨true, true⟩ (ImageLike.list [0, 2]) [0, 2]
    0 2 rfl rfl rfl rfl (by norm_num) (by norm_num) (by norm_num), ?_⟩
  norm_num [gridPixels, minMaxNormalize, gridMin, gridMax, normPixel, astypeUint8,
    ratFloor_eq_intFloor]
  decide

/-- C3 counterexample: with pillow importable but numpy missing, an
array-protocol object that exposes `__array_interface__` is normalized
without any error: the numpy requirement is skipped, so normalization does
not fail although the numeric-array capability is unavailable. -/
theorem array_deps_counterexample :
    _normalize_image ⟨true, false⟩ (ImageLike.arrayObj [0, 1] true) =
      .ok (.stream [137, 80, 78, 71, 13, 10, 26, 10, 0, 255] 10) := by
  norm_num [_normalize_image, normalizeArray, pngEncode, gridPixels, minMaxNormalize,
    gridMin, gridMax, normPixel, astypeUint8, ratFloor_eq_intFloor]
  decide

/-- C3 (amended): for every array-like input, pillow unavailable means a
`ModuleNotFoundError` for pillow; numpy unavailable additionally means a
`ModuleNotFoundError` for numpy exactly when the input lacks
`__array_interface__`; with pillow available and numpy available or the
interface attribute present, normalization succeeds. -/
theorem array_requires_pillow_and_numpy (deps : Deps) (src : ImageLike)
    (harr : isArrayLike src = true) :
    (deps.pillow = false →
      _normalize_image deps src = .error (.moduleNotFound "pillow"))
    ∧ (deps.pillow = true → deps.numpy = false → hasArrayIface src = false →
      _normalize_image deps src = .error (.moduleNotFound "numpy"))
    ∧ (deps.pillow = true → (deps.numpy = true ∨ hasArrayIface src = true) →
      _normalize_image deps src =
        .ok (.stream (pngEncode (gridPixels (gridOf src)))
          (pngEncode (gridPixels (gridOf src))).length)) := by
  cases src with
  | list g =>
      refine ⟨?_, ?_, ?_⟩
      · intro hp
        show normalizeArray deps false g = _
        simp [normalizeArray, hp]
      · intro hp hn _
        show normalizeArray deps false g = _
        simp [normalizeArray, hp, hn]
      · intro hp hn
        have hn' : deps.numpy = true := by
          rcases hn with hn | hn
          · exact hn
          · exact Bool.noConfusion hn
        exact normalizeArray_ok deps false g hp (Or.inl hn')
  | arrayObj g b =>
      refine ⟨?_, ?_, ?_⟩
      · intro hp
        show normalizeArray deps b g = _
        simp [normalizeArray, hp]
      · intro hp hn hb
        show normalizeArray deps b g = _
        have hb' : b = false := hb
        simp [normalizeArray, hp, hn, hb']
      · intro hp hn
        exact normalizeArray_ok deps b g hp hn
  | sparse g =>
      refine ⟨?_, ?_, ?_⟩
      · intro hp
        show normalizeArray deps false g = _
        simp [normalizeArray, hp]
      · intro hp hn _
        show normalizeArray deps false g = _
        simp [normalizeArray, hp, hn]
      · intro hp hn
        have hn' : deps.numpy = true := by
          rcases hn with hn | hn
          · exact hn
          · exact Bool.noConfusion hn
        exact normalizeArray_ok deps false g hp (Or.inl hn')
  | pil f d => exact Bool.noConfusion harr
  | str s => exact Bool.noConfusion harr
  | bytes b => exact Bool.noConfusion harr
  | stream b p => exact Bool.noConfusion harr
  | reader b p => exact Bool.noConfusion harr
  | path p => exact Bool.noConfusion harr
  | other t => exact Bool.noConfusion harr

/-- Witness for the amended C3: a nested list with pillow missing fails
with the pillow `ModuleNotFoundError`. -/
theorem array_requires_pillow_and_numpy_witness :
    _normalize_image ⟨false, false⟩ (ImageLike.list [3]) =
      .error (.moduleNotFound "pillow") :=
  (array_requires_pillow_and_numpy ⟨false, false⟩ (ImageLike.list [3]) rfl).1 rfl

/-- C7: for an existing local file given as a path object, or as a string
resolving to an existing file after home-directory expansion,
`image(p, defaults)` reads the file's bytes, registers them with the store
under the path's suffix as extension hint, and emits an `<img>` whose src
URL dereferences (in the updated store) to bytes identical to the file
content. -/
theorem render_local_file (deps : Deps) (fs : FileSystem) (home : String)
    (store : VStore) (p s : String) (content contentS : List Nat)
    (hp : fs p = some content) (hs : fs (expanduser home s) = some contentS) :
    image deps fs home store (.path p) defaultOpts =
      .ok (Html.img (some (vfileUrl store.length (some (pathSuffix p)))) none none,
        (vfileUrl store.length (some (pathSuffix p)), content) :: store)
    ∧ ((vfileUrl store.length (some (pathSuffix p)), content) :: store).lookup
        (vfileUrl store.length (some (pathSuffix p))) = some content
    ∧ image deps fs home store (.str s) defaultOpts =
      .ok (Html.img
          (some (vfileUrl store.length (some (pathSuffix (expanduser home s)))))
          none none,
        (vfileUrl store.length (some (pathSuffix (expanduser home s))), contentS)
          :: store)
    ∧ ((vfileUrl store.length (some (pathSuffix (expanduser home s))), contentS)
          :: store).lookup
        (vfileUrl store.length (some (pathSuffix (expanduser home s)))) =
          some contentS := by
  refine ⟨?_, ?_, ?_, ?_⟩
  · simp [image, _normalize_image, resolveSrc, register, hp, defaultOpts_caption,
      defaultOpts_alt, defaultStyles_none]
  · simp [List.lookup]
  · simp [image, _normalize_image, resolveSrc, register, hs, defaultOpts_caption,
      defaultOpts_alt, defaultStyles_none]
  · simp [List.lookup]

/-- Witness for C7 on a concrete two-file filesystem: a path input and a
tilde string input each register the file's bytes. -/
theorem render_local_file_witness :
    image ⟨true, true⟩ demoFs "/home/u" [] (.path "/home/u/a.png") defaultOpts =
      .ok (Html.img (some (vfileUrl 0 (some (pathSuffix "/home/u/a.png")))) none none,
        [(vfileUrl 0 (some (pathSuffix "/home/u/a.png")), [9, 9])])
    ∧ image ⟨true, true⟩ demoFs "/home/u" [] (.str "~/b.png") defaultOpts =
      .ok (Html.img
          (some (vfileUrl 0 (some (pathSuffix (expanduser "/home/u" "~/b.png")))))
          none none,
        [(vfileUrl 0 (some (pathSuffix (expanduser "/home/u" "~/b.png"))), [5])]) := by
  have h := render_local_file ⟨true, true⟩ demoFs "/home/u" [] "/home/u/a.png"
    "~/b.png" [9, 9] [5] (by decide) (by decide)
  exact ⟨h.1, h.2.2.1⟩

/-- C8 counterexample: with `rounded := true` but an explicit 8px
border-radius override, the computed style of the emitted `<img>` is
exactly "border-radius:8px"; it does not include `border-radius: 4px`
(the override key wins over the rounded entry). -/
theorem rounded_always_4px_counterexample :
    image ⟨true, true⟩ demoFs "/home/u" [] (.bytes [7]) roundedOverrideOpts =
      .ok (Html.img (some (vfileUrl 0 none)) none (some "border-radius:8px"),
        [(vfileUrl 0 none, [7])])
    ∧ "border-radius:8px".toList.count '4' = 0 := by
  constructor
  · rfl
  · decide

/-- C8 (amended): when the caller's style overrides contain no
border-radius key, `rounded := true` puts `border-radius: 4px` in the
computed style of the emitted `<img>` and `rounded := false` leaves no
border-radius entry; the emitted img's style is always the rendered
computed style dict. -/
theorem rounded_border_radius (opts : RenderOpts)
    (h : ∀ q ∈ opts.style.getD [], q.1 ≠ "border-radius") :
    (computedStyleDict opts).lookup "border-radius" =
      some (if opts.rounded then some "4px" else none)
    ∧ (opts.rounded = true → ("border-radius", some "4px") ∈ computedStyleDict opts)
    ∧ (opts.rounded = false →
        ("border-radius", some "4px") ∉ computedStyleDict opts)
    ∧ ∀ deps fs home store src html st,
        image deps fs home store src opts = .ok (html, st) →
        imgStyleOf html = create_style (computedStyleDict opts) := by
  refine ⟨?_, ?_, ?_, ?_⟩
  · rw [computedStyleDict, dictUpdate_lookup_of_not_key _ _ _ h,
      baseStyle_lookup_border]
  · intro hr
    rw [computedStyleDict, dictUpdate_mem_of_not_key _ _ _ _ h, hr]
    exact border_mem_baseStyle_true _ _
  · intro hr
    rw [computedStyleDict, dictUpdate_mem_of_not_key _ _ _ _ h, hr]
    exact border_not_mem_baseStyle_false _ _
  · intro deps fs home store src html st himg
    exact imgStyleOf_image deps fs home store src opts html st himg

/-- Witness for the amended C8: with `rounded := true` and no overrides the
computed style holds `border-radius: 4px`. -/
theorem rounded_border_radius_witness :
    (computedStyleDict roundedOpts).lookup "border-radius" = some (some "4px") := by
  have h := (rounded_border_radius roundedOpts (by simp [roundedOpts])).1
  simpa [roundedOpts] using h

/-- C9: the renderer's style map is the dict built from the normalized
width, height and conditional border-radius entries updated with the
caller's explicit overrides; on key collision the override's value wins,
and keys free of overrides keep their computed values. -/
theorem style_override_wins (opts : RenderOpts)
    (hnd : ((opts.style.getD []).map Prod.fst).Nodup) :
    computedStyleDict opts =
      dictUpdate (baseStyle opts.width opts.height opts.rounded)
        (opts.style.getD [])
    ∧ (∀ k v, (opts.style.getD []).lookup k = some v →
        (computedStyleDict opts).lookup k = some v)
    ∧ (∀ k, (∀ q ∈ opts.style.getD [], q.1 ≠ k) →
        (computedStyleDict opts).lookup k =
          (baseStyle opts.width opts.height opts.rounded).lookup k) :=
  ⟨rfl, fun k v h => dictUpdate_lookup_override _ _ k v hnd h,
   fun k h => dictUpdate_lookup_of_not_key _ _ k h⟩

/-- Witness for C9: the explicit 30px width override beats the computed
`width: 100px`. -/
theorem style_override_wins_witness :
    (computedStyleDict overrideWidthOpts).lookup "width" = some (some "30px") :=
  (style_override_wins overrideWidthOpts (by simp [overrideWidthOpts])).2.1
    "width" (some "30px") (by simp [overrideWidthOpts, List.lookup])

/-- C10: for a byte-stream or reader input at any read position, the
renderer seeks to 0 before reading, so the registered bytes are the whole
buffer; in particular the unrewound stream produced by the
array-normalization branch still registers its full PNG content. -/
theorem stream_sought_to_start (deps : Deps) (fs : FileSystem) (home : String)
    (store : VStore) (buf : List Nat) (pos pos2 : Nat) (opts : RenderOpts)
    (g : List ℚ) (out : List Nat)
    (harr : _normalize_image deps (.list g) = .ok (.stream out pos2)) :
    (∃ h1, image deps fs home store (.stream buf pos) opts =
        .ok (h1, (vfileUrl store.length none, buf) :: store))
    ∧ (∃ h2, image deps fs home store (.reader buf pos) opts =
        .ok (h2, (vfileUrl store.length none, buf) :: store))
    ∧ (∃ h3, image deps fs home store (.list g) opts =
        .ok (h3, (vfileUrl store.length none, out) :: store)) := by
  refine ⟨?_, ?_, ?_⟩
  · cases hc : opts.caption with
    | none =>
        exact ⟨Html.img (some (vfileUrl store.length none)) opts.alt
          (create_style (computedStyleDict opts)),
          by simp [image, _normalize_image, hc, resolveSrc, register, streamRead]⟩
    | some c =>
        exact ⟨Html.figure [Html.img (some (vfileUrl store.length none)) opts.alt
            (create_style (computedStyleDict opts)),
            Html.figcaption c figcaptionStyle] figureStyle,
          by simp [image, _normalize_image, hc, resolveSrc, register, streamRead]⟩
  · cases hc : opts.caption with
    | none =>
        exact ⟨Html.img (some (vfileUrl store.length none)) opts.alt
          (create_style (computedStyleDict opts)),
          by simp [image, _normalize_image, hc, resolveSrc, register, streamRead]⟩
    | some c =>
        exact ⟨Html.figure [Html.img (some (vfileUrl store.length none)) opts.alt
            (create_style (computedStyleDict opts)),
            Html.figcaption c figcaptionStyle] figureStyle,
          by simp [image, _normalize_image, hc, resolveSrc, register, streamRead]⟩
  · cases hc : opts.caption with
    | none =>
        exact ⟨Html.img (some (vfileUrl store.length none)) opts.alt
          (create_style (computedStyleDict opts)),
          by simp [image, harr, hc, resolveSrc, register, streamRead]⟩
    | some c =>
        exact ⟨Html.figure [Html.img (some (vfileUrl store.length none)) opts.alt
            (create_style (computedStyleDict opts)),
            Html.figcaption c figcaptionStyle] figureStyle,
          by simp [image, harr, hc, resolveSrc, register, streamRead]⟩

/-- Witness for C10: a stream at read position 5 still registers both of
its bytes, and the array branch's unrewound PNG stream registers the whole
encoding. -/
theorem stream_sought_to_start_witness :
    (∃ h1, image ⟨true, true⟩ demoFs "" [] (.stream [1, 2] 5) defaultOpts =
        .ok (h1, [(vfileUrl 0 none, [1, 2])]))
    ∧ (∃ h2, image ⟨true, true⟩ demoFs "" [] (.reader [1, 2] 5) defaultOpts =
        .ok (h2, [(vfileUrl 0 none, [1, 2])]))
    ∧ (∃ h3, image ⟨true, true⟩ demoFs "" [] (.list [0, 2]) defaultOpts =
        .ok (h3, [(vfileUrl 0 none, [137, 80, 78, 71, 13, 10, 26, 10, 0, 255])])) :=
  stream_sought_to_start ⟨true, true⟩ demoFs "" [] [1, 2] 5 10 defaultOpts [0, 2]
    [137, 80, 78, 71, 13, 10, 26, 10, 0, 255]
    (by
      norm_num [_normalize_image, normalizeArray, pngEncode, gridPixels,
        minMaxNormalize, gridMin, gridMax, normPixel, astypeUint8,
        ratFloor_eq_intFloor]
      decide)

end Marimo
